import Mathlib

/-!
# kube-rbac-proxy authorization core: a shallow embedding

This file embeds the authorization decision engine of kube-rbac-proxy in
Lean 4 and proves properties of it: the attribute model, the static rule
matcher (pkg/authz/auth.go), the path allow/ignore matcher
(pkg/authorization/path/path.go), template-based attribute rewriting and
the attribute generators (pkg/authorization/rewrite), the AND combinator
over generated attribute sets, the union (OR) combinator, and the
composition root (SetupAuthorizer).

Modelling conventions:
* Go slices and maps become lists / association lists.
* A Go `error` is `Option String` (`none` = nil error).
* A Go panic is modelled by an `Option` result on the enclosing function
  (`none` = the call panics); functions that cannot panic stay total.
* `context.Context` is reduced to the only datum the core reads from it:
  the list of extracted rewrite parameters (`GetKubeRBACProxyParams`).
-/

namespace KubeRBACProxy

/-- k8s.io/apiserver `authorizer.Decision`. `deny` is the first constructor
because `DecisionDeny` is Go's zero value for the type, which matters for
the AND loop's named return variable. -/
inductive Decision
  | deny
  | allow
  | noOpinion
deriving DecidableEq, Repr

/-- k8s.io/apiserver `user.Info`, reduced to the fields the core reads. -/
structure UserInfo where
  name : String
  groups : List String
deriving DecidableEq, Repr

/-- k8s.io/apiserver `authorizer.AttributesRecord`. `nspace` stands for the
Go field `Namespace` (a Lean keyword). `user` is optional: a nil user is
possible and `StaticAuthorizationConfig.Matches` guards against it. -/
structure AttributesRecord where
  user : Option UserInfo
  verb : String
  nspace : String
  apiGroup : String
  apiVersion : String
  resource : String
  subresource : String
  name : String
  resourceRequest : Bool
  path : String
deriving DecidableEq, Repr

/-- The triple a Go `authorizer.Authorizer.Authorize` returns:
(Decision, reason string, error). -/
structure AuthzResult where
  decision : Decision
  reason : String
  err : Option String
deriving DecidableEq, Repr

/-! ## Static authorizer (pkg/authz/auth.go) -/

/-- `UserConfig` of pkg/authz/auth.go. -/
structure UserConfig where
  name : String
  groups : List String
deriving DecidableEq, Repr

/-- `StaticAuthorizationConfig` of pkg/authz/auth.go: one static rule. -/
structure StaticAuthorizationConfig where
  user : UserConfig
  verb : String
  nspace : String
  apiGroup : String
  resource : String
  subresource : String
  name : String
  resourceRequest : Bool
  path : String
deriving DecidableEq, Repr

/-- The `isAllowed` closure inside `StaticAuthorizationConfig.Matches`:
an empty configured field matches anything, a non-empty one must be equal. -/
def isAllowedField (staticConf requestVal : String) : Bool :=
  if staticConf = "" then true else staticConf = requestVal

/-- `Matches` reads the user name through `a.GetUser()` with a nil guard:
a nil user contributes the empty name. -/
def userNameOf (a : AttributesRecord) : String :=
  match a.user with
  | none => ""
  | some u => u.name

/-- `StaticAuthorizationConfig.Matches` of pkg/authz/auth.go: the conjunction
of `isAllowed` on user name, verb, namespace, apiGroup, resource,
subresource, name and path, and exact equality on resourceRequest. -/
def Matches (c : StaticAuthorizationConfig) (a : AttributesRecord) : Bool :=
  isAllowedField c.user.name (userNameOf a) &&
  isAllowedField c.verb a.verb &&
  isAllowedField c.nspace a.nspace &&
  isAllowedField c.apiGroup a.apiGroup &&
  isAllowedField c.resource a.resource &&
  isAllowedField c.subresource a.subresource &&
  isAllowedField c.name a.name &&
  isAllowedField c.path a.path &&
  (c.resourceRequest = a.resourceRequest)

/-- `staticAuthorizer.Authorize` of pkg/authz/auth.go: first matching rule
(in configuration order) yields Allow, otherwise NoOpinion; never an error. -/
def staticAuthorize : List StaticAuthorizationConfig → AttributesRecord → AuthzResult
  | [], _ => ⟨.noOpinion, "", none⟩
  | c :: rest, a =>
    if Matches c a then ⟨.allow, "found corresponding static auth config", none⟩
    else staticAuthorize rest a

/-- The startup invariant `NewStaticAuthorizer` checks per rule: the rule is
rejected when `c.ResourceRequest != (c.Path == "")`. -/
def staticConfigInvalid (c : StaticAuthorizationConfig) : Bool :=
  !(c.resourceRequest = (c.path = ""))

/-- The error message of `NewStaticAuthorizer` (the Go message also prints
the offending configuration with %v; the constant prefix is kept). -/
def invalidStaticMsg : String :=
  "invalid configuration: resource requests must not include a path"

/-- `NewStaticAuthorizer` of pkg/authz/auth.go: fails on the first rule that
violates the invariant, otherwise returns the authorizer's rule list. -/
def NewStaticAuthorizer (config : List StaticAuthorizationConfig) :
    Except String (List StaticAuthorizationConfig) :=
  match config.find? staticConfigInvalid with
  | some _ => .error invalidStaticMsg
  | none => .ok config

/-- Matching as the spec words it (for claim C5): each non-empty string field
of the rule equals the corresponding attribute field, and resourceRequest is
equal exactly. Stated independently of `Matches` to compare the two. -/
def specRuleMatches (c : StaticAuthorizationConfig) (a : AttributesRecord) : Bool :=
  (c.user.name = "" || c.user.name = userNameOf a) &&
  (c.verb = "" || c.verb = a.verb) &&
  (c.nspace = "" || c.nspace = a.nspace) &&
  (c.apiGroup = "" || c.apiGroup = a.apiGroup) &&
  (c.resource = "" || c.resource = a.resource) &&
  (c.subresource = "" || c.subresource = a.subresource) &&
  (c.name = "" || c.name = a.name) &&
  (c.path = "" || c.path = a.path) &&
  (c.resourceRequest = a.resourceRequest)

/-! ## Glob matching (models Go's standard-library `path.Match`)

`path.Match` is an external dependency of pkg/authorization/path/path.go.
The model below follows its documented shell-glob semantics: `*` matches any
run of non-separator (`/`) characters, `?` one non-separator character,
`[...]`/`[^...]` a character class built from single characters and
`lo-hi` ranges with `\\`-escapes, `\\c` a literal `c`, and every other
character itself; a malformed pattern (unterminated escape, empty or
unterminated class, a class range with a misplaced `-` or `]`) is
`ErrBadPattern`, modelled as `.error ()`. One deliberate simplification:
the model reports a bad pattern only when matching reaches the malformed
construct, while Go validates the rest of a chunk even after a mismatch;
the two agree on every well-formed pattern. -/

/-- One (possibly escaped) character of a class range; models `getEsc` of
Go's path/match.go, which rejects a leading `-` or `]`, an unterminated
escape, and a class that ends right after this character. -/
def getEscChar : List Char → Option (Char × List Char)
  | [] => none
  | '-' :: _ => none
  | ']' :: _ => none
  | '\\' :: c :: rest => if rest = [] then none else some (c, rest)
  | c :: rest => if rest = [] then none else some (c, rest)

theorem getEscChar_length {cs rest : List Char} {c : Char}
    (h : getEscChar cs = some (c, rest)) : rest.length < cs.length := by
  rw [getEscChar.eq_def] at h
  split at h
  · exact Option.noConfusion h
  · exact Option.noConfusion h
  · exact Option.noConfusion h
  · split at h
    · exact Option.noConfusion h
    · injection h with h1
      injection h1 with h2 h3
      subst h3
      simp only [List.length_cons]
      omega
  · split at h
    · exact Option.noConfusion h
    · injection h with h1
      injection h1 with h2 h3
      subst h3
      simp only [List.length_cons]
      omega

def parseRanges (cs : List Char) (ranges : List (Char × Char)) :
    Option (List (Char × Char) × List Char) :=
  match cs with
  | [] => none
  | ']' :: rest =>
    if ranges = [] then none else some (ranges.reverse, rest)
  | c0 :: rest0 =>
    match h1 : getEscChar (c0 :: rest0) with
    | none => none
    | some (lo, cs1) =>
      match cs1 with
      | '-' :: cs1' =>
        match h2 : getEscChar cs1' with
        | none => none
        | some (hi, cs2) => parseRanges cs2 ((lo, hi) :: ranges)
      | other => parseRanges other ((lo, lo) :: ranges)
termination_by cs.length
decreasing_by
  · have l1 := getEscChar_length h1
    have l2 := getEscChar_length h2
    simp only [List.length_cons] at l1 ⊢
    omega
  · have l1 := getEscChar_length h1
    simp only [List.length_cons] at l1 ⊢
    omega

theorem parseRanges_length_aux (n : Nat) :
    ∀ {cs rest : List Char} {acc rs : List (Char × Char)}, cs.length ≤ n →
      parseRanges cs acc = some (rs, rest) → rest.length < cs.length := by
  induction n with
  | zero =>
    intro cs rest acc rs hle h
    have : cs = [] := List.eq_nil_of_length_eq_zero (Nat.le_zero.mp hle)
    subst this
    rw [parseRanges.eq_def] at h
    exact Option.noConfusion h
  | succ n ih =>
    intro cs rest acc rs hle h
    rw [parseRanges.eq_def] at h
    split at h
    · exact Option.noConfusion h
    · split at h
      · exact Option.noConfusion h
      · injection h with h1
        injection h1 with h2 h3
        subst h3
        simp only [List.length_cons]
        omega
    · split at h
      · exact Option.noConfusion h
      · rename_i lo cs1 hEsc
        split at h
        · split at h
          · exact Option.noConfusion h
          · rename_i hi2 cs2 heq2
            have l1 := getEscChar_length hEsc
            have l2 := getEscChar_length heq2
            simp only [List.length_cons] at l1 hle ⊢
            have ihr := ih (by omega) h
            omega
        · have l1 := getEscChar_length hEsc
          simp only [List.length_cons] at l1 hle ⊢
          have ihr := ih (by omega) h
          omega

theorem parseRanges_length {cs rest : List Char} {acc rs : List (Char × Char)}
    (h : parseRanges cs acc = some (rs, rest)) : rest.length < cs.length :=
  parseRanges_length_aux cs.length (Nat.le_refl _) h

def parseClass (cs : List Char) :
    Option (Bool × List (Char × Char) × List Char) :=
  match cs with
  | '^' :: rest => (parseRanges rest []).map (fun p => (true, p.1, p.2))
  | _ => (parseRanges cs []).map (fun p => (false, p.1, p.2))

theorem parseClass_length {cs rest : List Char} {neg : Bool}
    {rs : List (Char × Char)} (h : parseClass cs = some (neg, rs, rest)) :
    rest.length < cs.length := by
  rw [parseClass.eq_def] at h
  split at h
  · rw [Option.map_eq_some'] at h
    obtain ⟨⟨rs0, rest0⟩, hp, hmk⟩ := h
    cases hmk
    have hl := parseRanges_length hp
    simp only [List.length_cons]
    omega
  · rw [Option.map_eq_some'] at h
    obtain ⟨⟨rs0, rest0⟩, hp, hmk⟩ := h
    cases hmk
    exact parseRanges_length hp

def inRanges (c : Char) (ranges : List (Char × Char)) : Bool :=
  ranges.any (fun p => p.1 ≤ c && c ≤ p.2)

def globMatch (pattern name : List Char) : Except Unit Bool :=
  match pattern, name with
  | [], [] => .ok true
  | [], _ :: _ => .ok false
  | '*' :: ps, name =>
    (match globMatch ps name with
     | .ok true => .ok true
     | r =>
       match name with
       | [] => r
       | c :: rest =>
         if c = '/' then r
         else
           match globMatch ('*' :: ps) rest with
           | .ok true => .ok true
           | _ => r)
  | '?' :: ps, name =>
    (match name with
     | [] => .ok false
     | c :: rest => if c = '/' then .ok false else globMatch ps rest)
  | '[' :: ps, name =>
    (match hcl : parseClass ps with
     | none => .error ()
     | some (negated, ranges, ps1) =>
       match name with
       | [] => .ok false
       | c :: rest =>
         if inRanges c ranges ≠ negated then globMatch ps1 rest else .ok false)
  | '\\' :: ps, name =>
    (match ps with
     | [] => .error ()
     | e :: ps1 =>
       match name with
       | [] => .ok false
       | c :: rest => if c = e then globMatch ps1 rest else .ok false)
  | p :: ps, name =>
    (match name with
     | [] => .ok false
     | c :: rest => if c = p then globMatch ps rest else .ok false)
termination_by (pattern.length, name.length)
decreasing_by
  all_goals simp_wf
  all_goals try (apply Prod.Lex.right; omega)
  all_goals try (apply Prod.Lex.left; omega)
  all_goals
    (apply Prod.Lex.left
     have hl := parseClass_length hcl
     omega)

/-- `path.Match` as a Bool: `false` both on a non-match and on a bad
pattern (callers that need the distinction use `globOk`). -/
def globMatchB (pat pth : String) : Bool :=
  match globMatch pat.data pth.data with
  | .ok b => b
  | .error _ => false

/-- Does `path.Match` run without a bad-pattern error on this input? -/
def globOk (pat pth : String) : Bool :=
  match globMatch pat.data pth.data with
  | .ok _ => true
  | .error _ => false

/-! ## Path authorizer (pkg/authorization/path/path.go) -/

/-- Go `strings.TrimPrefix(s, "/")`: strips one leading slash if present. -/
def trimOneSlash (s : String) : String :=
  match s.data with
  | '/' :: rest => String.mk rest
  | _ => s

/-- Go `strings.ContainsRune(s, '*')`. -/
def containsStar (s : String) : Bool :=
  s.data.contains '*'

/-- `pathAuthorizer` of pkg/authorization/path/path.go: the exact-match set
(`sets.String`, modelled as a list queried by membership) and the glob
pattern list, together with the decisions for match and no-match. -/
structure PathAuthorizer where
  matchDecision : Decision
  noMatchDecision : Decision
  paths : List String
  pathPatterns : List String
deriving DecidableEq, Repr

/-- The per-entry classification step of `newPathAuthorizer`'s input loop. -/
def pathStep (acc : List String × List String) (p : String) :
    List String × List String :=
  let q := trimOneSlash p
  if q.length = 0 then (acc.1 ++ [q], acc.2)
  else if containsStar q then (acc.1, acc.2 ++ [q])
  else (acc.1 ++ [q], acc.2)

/-- `newPathAuthorizer`: every input path is stripped of one leading slash;
an emptied path or a path without a star goes to the exact-match set, a
path containing a star to the pattern list, preserving order. -/
def newPathAuthorizer (onMatch onNoMatch : Decision) (inputPaths : List String) :
    PathAuthorizer :=
  let built := inputPaths.foldl pathStep ([], [])
  ⟨onMatch, onNoMatch, built.1, built.2⟩

/-- The sequential glob loop of `pathAuthorizer.Authorize`: first matching
pattern wins; a bad pattern surfaces as (NoOpinion, "Error", err). -/
def matchPatterns (md nmd : Decision) (pth : String) : List String → AuthzResult
  | [] => ⟨nmd, "", none⟩
  | pat :: rest =>
    match globMatch pat.data pth.data with
    | .error _ => ⟨.noOpinion, "Error", some "syntax error in pattern"⟩
    | .ok true => ⟨md, "", none⟩
    | .ok false => matchPatterns md nmd pth rest

/-- `pathAuthorizer.Authorize`: strip one leading slash from the request
path, check the exact-match set, then the patterns in order. -/
def pathAuthorize (a : PathAuthorizer) (attr : AttributesRecord) : AuthzResult :=
  let pth := trimOneSlash attr.path
  if a.paths.contains pth then ⟨a.matchDecision, "", none⟩
  else matchPatterns a.matchDecision a.noMatchDecision pth a.pathPatterns

/-- `noopAuthorizer` of path.go: always NoOpinion. -/
def noopAuthorize : AttributesRecord → AuthzResult :=
  fun _ => ⟨.noOpinion, "", none⟩

/-- `NewAllowPathAuthorizer`: for an empty list the no-op authorizer;
otherwise match ⇒ NoOpinion and no match ⇒ Deny. -/
def NewAllowPathAuthorizer (allowPaths : List String) :
    AttributesRecord → AuthzResult :=
  if allowPaths.length = 0 then noopAuthorize
  else pathAuthorize (newPathAuthorizer .noOpinion .deny allowPaths)

/-- `NewAlwaysAllowPathAuthorizer`: match ⇒ Allow, no match ⇒ NoOpinion. -/
def NewAlwaysAllowPathAuthorizer (alwaysAllowPaths : List String) :
    AttributesRecord → AuthzResult :=
  pathAuthorize (newPathAuthorizer .allow .noOpinion alwaysAllowPaths)

/-- One configured entry matched against a request path, as the spec words
it (claim C6): strip one leading slash from both; an entry with a star is a
glob pattern, any other entry must be equal verbatim. -/
def entryMatchesB (entry pth : String) : Bool :=
  let e := trimOneSlash entry
  if containsStar e then globMatchB e pth else e = pth

/-- Does any configured entry match the (stripped) request path? -/
def specPathMatches (inputPaths : List String) (reqPath : String) : Bool :=
  inputPaths.any (fun e => entryMatchesB e (trimOneSlash reqPath))

/-- Do all glob entries of the list parse cleanly against this request path
(no `ErrBadPattern` can surface while authorizing it)? -/
def pathGlobsOk (inputPaths : List String) (reqPath : String) : Bool :=
  inputPaths.all (fun e =>
    let p := trimOneSlash e
    !(containsStar p) || globOk p (trimOneSlash reqPath))

/-! ## Template substitution (pkg/authorization/rewrite, pkg/authz)

`templateWithValue` exists in three copies (the rewrite generator file, the
rewrite config file and pkg/authz/auth.go); all three parse the field as a
Go template and execute it against `struct{ Value string }`. The model
below covers the template subset these fields use: literal text and
`{{ .Field }}` actions. A parse failure makes every copy panic: the
pkg/authorization/config.go copy panics explicitly (`panic(err)`), the other
two ignore the `Parse` error, leaving a nil `*Template` whose `Execute`
dereferences nil (`errRecover` re-panics runtime errors). An execution
failure (a field other than `Value`) is swallowed into the empty string. -/

/-- One node of a parsed template. -/
inductive TNode
  | text (s : String)
  | field (name : String)
deriving DecidableEq, Repr

/-- The body of one action, already collected between `{{` and `}}`:
optional spaces, a dot, a non-empty identifier. Any other action body is a
parse error in the modelled subset. -/
def parseAction (body : List Char) : Option TNode :=
  let t := ((body.dropWhile (fun c => c = ' ')).reverse.dropWhile
    (fun c => c = ' ')).reverse
  match t with
  | '.' :: id =>
    if id ≠ [] ∧ id.all (fun c => c.isAlphanum || c = '_') then
      some (.field (String.mk id))
    else none
  | _ => none

/-- Split a template string into text and action nodes; `none` on an
unclosed or malformed action. Outside an action (`mode = none`) `{{` opens
one and any other character is text; inside an action (`mode = some acc`,
the body collected in reverse) `}}` closes it and the end of the input is
an unclosed-action parse error. -/
def scanTemplate : Option (List Char) → List Char → Option (List TNode)
  | none, [] => some []
  | none, '{' :: '{' :: rest => scanTemplate (some []) rest
  | none, c :: rest =>
    (scanTemplate none rest).map (fun ns => TNode.text (String.mk [c]) :: ns)
  | some _, [] => none
  | some acc, '}' :: '}' :: rest =>
    (match parseAction acc.reverse with
     | none => none
     | some node => (scanTemplate none rest).map (fun ns => node :: ns))
  | some acc, c :: rest => scanTemplate (some (c :: acc)) rest

/-- `template.Parse` of the modelled subset. -/
def parseTemplate (s : String) : Option (List TNode) :=
  scanTemplate none s.toList

/-- `template.Execute` against `struct{ Value string }`: a `.Value` action
renders the substitution value, any other field is an execution error. -/
def renderNodes : List TNode → String → Option String
  | [], _ => some ""
  | .text t :: ns, v => (renderNodes ns v).map (fun s => t ++ s)
  | .field f :: ns, v =>
    if f = "Value" then (renderNodes ns v).map (fun s => v ++ s) else none

/-- `templateWithValue`: `none` models the panic on a parse failure; an
execution failure is swallowed into `some ""`; otherwise the rendering. -/
def templateWithValue (templateString value : String) : Option String :=
  match parseTemplate templateString with
  | none => none
  | some nodes =>
    match renderNodes nodes value with
    | none => some ""
    | some out => some out

/-- Is `{{` present anywhere (does the string contain a template action)? -/
def hasOpenAction : List Char → Bool
  | [] => false
  | '{' :: '{' :: _ => true
  | _ :: rest => hasOpenAction rest

/-! ## Rewrite configuration and attribute generators
(pkg/authorization/rewrite) -/

/-- `ResourceAttributes`: the six templated resource-coordinate fields. -/
structure ResourceAttributes where
  nspace : String
  apiGroup : String
  apiVersion : String
  resource : String
  subresource : String
  name : String
deriving DecidableEq, Repr

/-- `QueryParameterRewriteConfig`. -/
structure QueryParameterRewriteConfig where
  name : String
deriving DecidableEq, Repr

/-- `HTTPHeaderRewriteConfig`. -/
structure HTTPHeaderRewriteConfig where
  name : String
deriving DecidableEq, Repr

/-- `SubjectAccessReviewRewrites`: the optional query-parameter source and
the optional header source. -/
structure SubjectAccessReviewRewrites where
  byQueryParameter : Option QueryParameterRewriteConfig
  byHTTPHeader : Option HTTPHeaderRewriteConfig
deriving DecidableEq, Repr

/-- `RewriteAttributesConfig`: the optional rewrites and the optional
ResourceAttributes template. -/
structure RewriteAttributesConfig where
  rewrites : Option SubjectAccessReviewRewrites
  resourceAttributes : Option ResourceAttributes
deriving DecidableEq, Repr

/-- The request context, reduced to what `GetKubeRBACProxyParams` reads
from it: the extracted rewrite parameter values, in transport order. -/
abbrev Ctx := List String

/-- The closed family of `AttributesGenerator` implementations
(DefaultAttributesGenerator, BoundAttributesGenerator,
RewritingAttributesGenerator). -/
inductive AttributesGenerator
  | defaultGen
  | bound (ra : ResourceAttributes)
  | rewriting (ra : ResourceAttributes)
deriving DecidableEq, Repr

/-- One rewritten attribute set of `RewritingAttributesGenerator.Generate`:
every ResourceAttributes field run through `templateWithValue` with one
parameter value; `none` when one of the six substitutions panics. -/
def substituteAttr (ra : ResourceAttributes) (u : Option UserInfo)
    (verb param : String) : Option AttributesRecord := do
  let ns ← templateWithValue ra.nspace param
  let g ← templateWithValue ra.apiGroup param
  let v ← templateWithValue ra.apiVersion param
  let r ← templateWithValue ra.resource param
  let sr ← templateWithValue ra.subresource param
  let nm ← templateWithValue ra.name param
  pure ⟨u, verb, ns, g, v, r, sr, nm, true, ""⟩

/-- `Generate` of the three generators. Default: one set with the original
user, verb and path and `ResourceRequest=false`. Bound: one set with the
ResourceAttributes copied verbatim and `ResourceRequest=true`. Rewriting:
the parameters from the context; an empty parameter list yields the empty
attribute list (Go returns nil), otherwise one substituted set per
parameter in order. -/
def generate : AttributesGenerator → Ctx → AttributesRecord →
    Option (List AttributesRecord)
  | .defaultGen, _, attr =>
    some [⟨attr.user, attr.verb, "", "", "", "", "", "", false, attr.path⟩]
  | .bound ra, _, attr =>
    some [⟨attr.user, attr.verb, ra.nspace, ra.apiGroup, ra.apiVersion,
      ra.resource, ra.subresource, ra.name, true, ""⟩]
  | .rewriting ra, ctx, attr =>
    let params := ctx
    if params.length = 0 then some []
    else params.mapM (substituteAttr ra attr.user attr.verb)

/-- Do all six ResourceAttributes template fields parse (so that no
substitution can panic)? -/
def raTemplatesParse (ra : ResourceAttributes) : Bool :=
  (parseTemplate ra.nspace).isSome && (parseTemplate ra.apiGroup).isSome &&
  (parseTemplate ra.apiVersion).isSome && (parseTemplate ra.resource).isSome &&
  (parseTemplate ra.subresource).isSome && (parseTemplate ra.name).isSome

/-- Total substitution of one field (for statements): the rendering, the
empty string on an execution error, and also the empty string in the
(panicking) parse-failure case that `raTemplatesParse` rules out. -/
def substValue (field param : String) : String :=
  match templateWithValue field param with
  | some s => s
  | none => ""

/-! ## The AND combinator over generated attribute sets
(delegateAuthorizer.Authorize in the rewrite package, and the same loop in
rewritingAuthorizer.Authorize of pkg/authorization/config.go) -/

/-- An authorizer as a function, as the delegate boundary sees it. -/
abbrev Authorizer := Ctx → AttributesRecord → AuthzResult

/-- The error message of the AND loop's error branch
(`fmt.Errorf("authorization error (user=%s, ...): %w", ...)`; note the Go
code prints the attribute `Name` field for `user=`). -/
def authzErrMsg (a : AttributesRecord) (e : String) : String :=
  "authorization error (user=" ++ a.name ++ ", verb=" ++ a.verb ++
    ", resource=" ++ a.resource ++ ", subresource=" ++ a.subresource ++
    "): " ++ e

/-- The reason of the AND loop's non-allow branch
(`fmt.Sprintf("Forbidden (user=%s, ...): %s", ...)`). -/
def forbiddenMsg (a : AttributesRecord) (reason : String) : String :=
  "Forbidden (user=" ++ a.name ++ ", verb=" ++ a.verb ++
    ", resource=" ++ a.resource ++ ", subresource=" ++ a.subresource ++
    "): " ++ reason

/-- The AND loop shared by `delegateAuthorizer.Authorize` and
`rewritingAuthorizer.Authorize`: one delegate call per attribute set in
order; an error or a non-Allow decision ends the loop; `last` carries the
`authorized` named return variable (zero value `DecisionDeny`), consulted
after a completed loop. -/
def andLoop (d : AttributesRecord → AuthzResult) :
    List AttributesRecord → Decision → AuthzResult
  | [], last =>
    if last = .allow then ⟨.allow, "", none⟩
    else ⟨.deny, "No attribute combination matched", none⟩
  | a :: rest, _ =>
    let r := d a
    match r.err with
    | some e => ⟨.deny, "AuthorizationError", some (authzErrMsg a e)⟩
    | none =>
      if r.decision ≠ .allow then ⟨.deny, forbiddenMsg a r.reason, none⟩
      else andLoop d rest r.decision

/-- The AND combinator on an already-generated sequence of attribute sets
(the body of `delegateAuthorizer.Authorize` after `Generate`). -/
def andCombinator (d : AttributesRecord → AuthzResult)
    (attrs : List AttributesRecord) : AuthzResult :=
  andLoop d attrs .deny

/-- The attribute sets the AND loop passes to the delegate, in call order:
every set before the first non-allowed one, and that set itself. -/
def andCalls (d : AttributesRecord → AuthzResult) :
    List AttributesRecord → List AttributesRecord
  | [] => []
  | a :: rest =>
    if (d a).err = none ∧ (d a).decision = .allow then a :: andCalls d rest
    else [a]

/-- Is one attribute set individually allowed by the delegate (decision
Allow and no error)? -/
def allowsB (d : AttributesRecord → AuthzResult) (a : AttributesRecord) : Bool :=
  (d a).err = none ∧ (d a).decision = .allow

/-- The AND combinator's result as the (amended) spec words it: the first
set that is not individually allowed determines the result (the error
branch or the forbidden branch annotated with that set's coordinates);
with no such set, Allow for a non-empty sequence and the
no-attribute-combination denial for the empty one. -/
def andSpecResult (d : AttributesRecord → AuthzResult)
    (attrs : List AttributesRecord) : AuthzResult :=
  match attrs.find? (fun a => !allowsB d a) with
  | some a =>
    match (d a).err with
    | some e => ⟨.deny, "AuthorizationError", some (authzErrMsg a e)⟩
    | none => ⟨.deny, forbiddenMsg a (d a).reason, none⟩
  | none =>
    if attrs.isEmpty then ⟨.deny, "No attribute combination matched", none⟩
    else ⟨.allow, "", none⟩

/-- The delegate-call sequence as the spec words it: the generated sets up
to and including the first one that is not individually allowed
(`findIdx` is the list length when every set is allowed, so the whole
sequence is taken). -/
def andSpecCalls (d : AttributesRecord → AuthzResult)
    (attrs : List AttributesRecord) : List AttributesRecord :=
  attrs.take (attrs.findIdx (fun a => !allowsB d a) + 1)

/-- `NewDelegateAuthorizer(delegate, attrGen).Authorize`: generate, then
run the AND loop; `none` models a panic escaping from generation. -/
def delegateAuthorize (gen : AttributesGenerator) (delegate : Authorizer)
    (ctx : Ctx) (attr : AttributesRecord) : Option AuthzResult :=
  (generate gen ctx attr).map (fun attrs => andCombinator (delegate ctx) attrs)

/-! ## rewritingAuthorizer (pkg/authorization/config.go) -/

/-- `rewritingAuthorizer.getKubeRBACProxyAuthzAttributes`: default
attributes without a ResourceAttributes template; the template verbatim
without rewrites; with rewrites, one substituted set per context parameter,
nil for an empty parameter list. `none` models the substitution panic. -/
def getKubeRBACProxyAuthzAttributes (cfg : RewriteAttributesConfig)
    (ctx : Ctx) (origAttrs : AttributesRecord) :
    Option (List AttributesRecord) :=
  match cfg.resourceAttributes with
  | none =>
    some [⟨origAttrs.user, origAttrs.verb, "", "", "", "", "", "", false,
      origAttrs.path⟩]
  | some ra =>
    match cfg.rewrites with
    | none =>
      some [⟨origAttrs.user, origAttrs.verb, ra.nspace, ra.apiGroup,
        ra.apiVersion, ra.resource, ra.subresource, ra.name, true, ""⟩]
    | some _ =>
      let params := ctx
      if params.length = 0 then some []
      else params.mapM (substituteAttr ra origAttrs.user origAttrs.verb)

/-- The reason and error of the malformed-request branch of
`rewritingAuthorizer.Authorize`. -/
def malformedReason : String := "The request or configuration is malformed."

/-- The non-nil error the malformed-request branch carries. -/
def malformedErr : String :=
  "bad request. The request or configuration is malformed"

/-- `rewritingAuthorizer.Authorize`: generate internally; zero attribute
sets fail closed with the malformed-request error; otherwise the same AND
loop as `delegateAuthorizer`. -/
def rewritingAuthorize (cfg : RewriteAttributesConfig) (delegate : Authorizer)
    (ctx : Ctx) (attr : AttributesRecord) : Option AuthzResult :=
  (getKubeRBACProxyAuthzAttributes cfg ctx attr).map (fun proxyAttrs =>
    if proxyAttrs.length = 0 then ⟨.deny, malformedReason, some malformedErr⟩
    else andCombinator (delegate ctx) proxyAttrs)

/-! ## Rewrite parameter extractor (requestToParams of
pkg/authorization/rewrite/middleware.go and pkg/authorization/config.go) -/

/-- The inputs `requestToParams` reads from the request: the parsed URL
query (`url.Values`) and the header map (`http.Header`), both maps from a
key to the ordered values, modelled as association lists with unique keys. -/
structure Request where
  query : List (String × List String)
  header : List (String × List String)
deriving DecidableEq, Repr

/-- Go map lookup `m[k]` with its `ok` bit: `some values` when present. -/
def lookupVals (m : List (String × List String)) (k : String) :
    Option (List String) :=
  (m.find? (fun p => p.1 = k)).map (fun p => p.2)

/-- A valid MIME header field byte (`validHeaderFieldByte` of
net/textproto): an ASCII letter, digit, or one of the token punctuation
characters. -/
def validHeaderFieldChar (c : Char) : Bool :=
  c.isAlphanum ||
    [Char.ofNat 33, Char.ofNat 35, Char.ofNat 36, Char.ofNat 37,
     Char.ofNat 38, Char.ofNat 39, Char.ofNat 42, Char.ofNat 43,
     Char.ofNat 45, Char.ofNat 46, Char.ofNat 94, Char.ofNat 95,
     Char.ofNat 96, Char.ofNat 124, Char.ofNat 126].contains c

/-- The canonicalisation loop: uppercase at the start and after a hyphen,
lowercase elsewhere. -/
def canonAux : Bool → List Char → List Char
  | _, [] => []
  | upper, c :: rest =>
    (if upper then c.toUpper else c.toLower) :: canonAux (c = '-') rest

/-- `textproto.CanonicalMIMEHeaderKey`: a key with an invalid byte is
returned unmodified, otherwise it is canonicalised. -/
def canonicalMIMEHeaderKey (s : String) : String :=
  if s.toList.all validHeaderFieldChar then String.mk (canonAux true s.toList)
  else s

/-- `requestToParams`: nil without a config or rewrites; otherwise the
values of the configured query parameter (if named and present), followed
by the values of the configured header (if named and present, looked up
under its canonical key). -/
def requestToParams (config : Option RewriteAttributesConfig) (req : Request) :
    List String :=
  match config with
  | none => []
  | some c =>
    match c.rewrites with
    | none => []
    | some rw =>
      let params : List String := []
      let params :=
        match rw.byQueryParameter with
        | some q =>
          if q.name ≠ "" then
            match lookupVals req.query q.name with
            | some ps => params ++ ps
            | none => params
          else params
        | none => params
      match rw.byHTTPHeader with
      | some hh =>
        if hh.name ≠ "" then
          match lookupVals req.header (canonicalMIMEHeaderKey hh.name) with
          | some ps => params ++ ps
          | none => params
        else params
      | none => params

/-- The query-parameter side of the extraction, in isolation (for the
amended claim C2). -/
def queryParamsOf (rw : SubjectAccessReviewRewrites) (req : Request) :
    List String :=
  match rw.byQueryParameter with
  | some q =>
    if q.name ≠ "" then (lookupVals req.query q.name).getD [] else []
  | none => []

/-- The header side of the extraction, in isolation (for the amended
claim C2). -/
def headerParamsOf (rw : SubjectAccessReviewRewrites) (req : Request) :
    List String :=
  match rw.byHTTPHeader with
  | some hh =>
    if hh.name ≠ "" then
      (lookupVals req.header (canonicalMIMEHeaderKey hh.name)).getD []
    else []
  | none => []

/-! ## Union (OR) combinator

Models `union.New` of k8s.io/apiserver (an external dependency): the
strategies are tried in order; the first Allow or Deny decision without an
error is returned; NoOpinion and errors accumulate (non-empty reasons are
joined with newlines, errors aggregated). -/

/-- `utilerrors.NewAggregate`: nil for no errors, otherwise an aggregate
(modelled as the joined messages). -/
def aggregateErrs : List String → Option String
  | [] => none
  | es => some (String.intercalate ", " es)

/-- The loop of `unionAuthzHandler.Authorize`. -/
def unionLoop (ctx : Ctx) (attr : AttributesRecord) :
    List Authorizer → List String → List String → AuthzResult
  | [], reasons, errs =>
    ⟨.noOpinion, String.intercalate "\n" reasons, aggregateErrs errs⟩
  | a :: rest, reasons, errs =>
    let r := a ctx attr
    match r.err with
    | some e =>
      unionLoop ctx attr rest
        (if r.reason ≠ "" then reasons ++ [r.reason] else reasons)
        (errs ++ [e])
    | none =>
      match r.decision with
      | .allow => ⟨r.decision, r.reason, none⟩
      | .deny => ⟨r.decision, r.reason, none⟩
      | .noOpinion =>
        unionLoop ctx attr rest
          (if r.reason ≠ "" then reasons ++ [r.reason] else reasons) errs

/-- `union.New(authorizers...)` as one authorizer. -/
def unionAuthorize (authorizers : List Authorizer) : Authorizer :=
  fun ctx attr => unionLoop ctx attr authorizers [] []

/-! ## Composition root (SetupAuthorizer of the authorization package) -/

/-- `AuthzConfig`: the embedded RewriteAttributesConfig plus the optional
static rule list (`nil` vs present matches Go's `config.Static != nil`). -/
structure AuthzConfig where
  rewrites : Option SubjectAccessReviewRewrites
  resourceAttributes : Option ResourceAttributes
  static : Option (List StaticAuthorizationConfig)
deriving DecidableEq, Repr

/-- The generator selection switch at the end of `SetupAuthorizer`. -/
def selectGenerator (config : AuthzConfig) : AttributesGenerator :=
  match config.resourceAttributes, config.rewrites with
  | some ra, none => .bound ra
  | some ra, some _ => .rewriting ra
  | none, _ => .defaultGen

/-- The tail of `SetupAuthorizer`: wrap the collected strategies plus the
delegate in the union, and the union in the delegate authorizer driven by
the selected generator. -/
def setupFinish (config : AuthzConfig) (delegate : Authorizer)
    (authz : List Authorizer) : Ctx → AttributesRecord → Option AuthzResult :=
  delegateAuthorize (selectGenerator config)
    (unionAuthorize (authz ++ [delegate]))

/-- `SetupAuthorizer`: allow and ignore paths are mutually exclusive; the
path authorizer (allow before ignore) and then the static authorizer are
appended to the strategy list; the delegate comes last inside the union;
the AND combinator with the selected generator wraps the union. -/
def SetupAuthorizer (config : AuthzConfig) (allowPaths ignorePaths : List String)
    (delegate : Authorizer) :
    Except String (Ctx → AttributesRecord → Option AuthzResult) :=
  if allowPaths.length > 0 ∧ ignorePaths.length > 0 then
    .error "allow and ignore paths cannot be used together"
  else
    let authz : List Authorizer :=
      if allowPaths.length > 0 then
        [fun _ attr => NewAllowPathAuthorizer allowPaths attr]
      else if ignorePaths.length > 0 then
        [fun _ attr => NewAlwaysAllowPathAuthorizer ignorePaths attr]
      else []
    match config.static with
    | some staticCfg =>
      match NewStaticAuthorizer staticCfg with
      | .error e => .error ("failed to create static authorizer: " ++ e)
      | .ok cfgs =>
        .ok (setupFinish config delegate
          (authz ++ [fun _ attr => staticAuthorize cfgs attr]))
    | none => .ok (setupFinish config delegate authz)

/-- The strategy list as claim C4 words it: the path strategy (if
configured), then the static matcher (if configured), then the delegate. -/
def specStrategyList (config : AuthzConfig) (allowPaths ignorePaths : List String)
    (delegate : Authorizer) : List Authorizer :=
  (if allowPaths.length > 0 then
    ([fun _ attr => NewAllowPathAuthorizer allowPaths attr] : List Authorizer)
   else if ignorePaths.length > 0 then
    ([fun _ attr => NewAlwaysAllowPathAuthorizer ignorePaths attr] : List Authorizer)
   else []) ++
  (match config.static with
   | some staticCfg =>
     ([fun _ attr => staticAuthorize staticCfg attr] : List Authorizer)
   | none => []) ++
  [delegate]

/-- The generator selection as claim C4 words it: Default without
ResourceAttributes, Bound with ResourceAttributes and no rewrites,
Rewriting with both. -/
def specGeneratorFor (config : AuthzConfig) : AttributesGenerator :=
  match config.resourceAttributes with
  | none => .defaultGen
  | some ra =>
    match config.rewrites with
    | none => .bound ra
    | some _ => .rewriting ra

/-! ## Concrete instances used by witnesses and counterexamples -/

/-- A delegate decision function that allows every attribute set. -/
def constAllow : AttributesRecord → AuthzResult :=
  fun _ => ⟨.allow, "", none⟩

/-- An external delegate authorizer that allows everything. -/
def dAllow : Authorizer :=
  fun _ _ => ⟨.allow, "", none⟩

/-- A sample ResourceAttributes template: a templated namespace, a fixed
resource. -/
def raSample : ResourceAttributes :=
  ⟨"{{.Value}}", "", "v1", "pods", "", ""⟩

/-- A sample request attribute record: user bob, verb get, path /metrics. -/
def attrBob : AttributesRecord :=
  ⟨some ⟨"bob", []⟩, "get", "", "", "", "", "", "", false, "/metrics"⟩

/-- A sample static rule (valid: a non-resource rule with a path). -/
def ruleAlice : StaticAuthorizationConfig :=
  ⟨⟨"alice", ["dev"]⟩, "get", "", "", "", "", "", false, "/healthz"⟩

/-- A sample composition-root configuration: no template, no rewrites, one
static rule. -/
def cfgC4 : AuthzConfig :=
  ⟨none, none, some [ruleAlice]⟩

/-- The authorizer `SetupAuthorizer` builds for `cfgC4` with allow path
`metrics` and the always-allow delegate. -/
def setupC4 : Ctx → AttributesRecord → Option AuthzResult :=
  match SetupAuthorizer cfgC4 ["metrics"] [] dAllow with
  | .ok f => f
  | .error _ => fun _ _ => none

/-- A rewrite config naming both a query parameter and a header. -/
def cfgBothSources : Option RewriteAttributesConfig :=
  some ⟨some ⟨some ⟨"ns"⟩, some ⟨"X-Ns"⟩⟩, none⟩

/-- A request carrying the value `qv` in the query parameter `ns` and the
value `hv` in the header `X-Ns`. -/
def reqBothSources : Request :=
  ⟨[("ns", ["qv"])], [("X-Ns", ["hv"])]⟩

/-! # Theorems -/

/-! ## Shared lemmas on the static matcher -/

theorem isAllowedField_eq (x y : String) :
    isAllowedField x y = (x = "" || x = y) := by
  unfold isAllowedField
  split <;> simp_all

theorem Matches_eq_specRuleMatches (c : StaticAuthorizationConfig)
    (a : AttributesRecord) : Matches c a = specRuleMatches c a := by
  simp [Matches, specRuleMatches, isAllowedField_eq]

/-- C5: the static matcher returns Allow exactly when some rule in
configuration order matches — a rule matches when each of its non-empty
string fields equals the corresponding attribute field and its
resourceRequest equals exactly — and returns NoOpinion (never Deny, never
an error) when no rule matches. -/
theorem static_matcher_c5 (cfgs : List StaticAuthorizationConfig)
    (a : AttributesRecord) :
    staticAuthorize cfgs a =
      (if cfgs.any (fun c => specRuleMatches c a) then
        ⟨.allow, "found corresponding static auth config", none⟩
       else ⟨.noOpinion, "", none⟩)
    ∧ (staticAuthorize cfgs a).decision ≠ .deny
    ∧ (staticAuthorize cfgs a).err = none := by
  have key : staticAuthorize cfgs a =
      (if cfgs.any (fun c => specRuleMatches c a) then
        ⟨.allow, "found corresponding static auth config", none⟩
       else ⟨.noOpinion, "", none⟩) := by
    induction cfgs with
    | nil => simp [staticAuthorize]
    | cons c rest ih =>
      simp only [staticAuthorize, List.any_cons, Matches_eq_specRuleMatches]
      by_cases hm : specRuleMatches c a = true
      · simp [hm]
      · simp only [Bool.not_eq_true] at hm
        simp [hm, ih]
  refine ⟨key, ?_, ?_⟩ <;> rw [key] <;> split <;> simp

theorem staticConfigInvalid_iff (c : StaticAuthorizationConfig) :
    staticConfigInvalid c = true ↔
      ((c.resourceRequest = true ∧ c.path ≠ "") ∨
       (c.resourceRequest = false ∧ c.path = "")) := by
  unfold staticConfigInvalid
  cases hr : c.resourceRequest <;> by_cases hp : c.path = "" <;> simp_all

/-- C9: constructing the static authorizer fails if and only if some rule
violates `resourceRequest == (path == "")` — a resource rule with a
non-empty path or a non-resource rule with an empty path — and succeeds
(returning the rule list unchanged) exactly when every rule satisfies it. -/
theorem static_constructor_c9 (config : List StaticAuthorizationConfig) :
    (NewStaticAuthorizer config = .error invalidStaticMsg ↔
      ∃ c ∈ config, (c.resourceRequest = true ∧ c.path ≠ "") ∨
        (c.resourceRequest = false ∧ c.path = ""))
    ∧ (NewStaticAuthorizer config = .ok config ↔
      ∀ c ∈ config, c.resourceRequest = (c.path = "")) := by
  unfold NewStaticAuthorizer
  cases hf : config.find? staticConfigInvalid with
  | none =>
    have hall := List.find?_eq_none.mp hf
    constructor
    · constructor
      · intro h
        exact Except.noConfusion h
      · intro ⟨c, hc, hv⟩
        exact absurd ((staticConfigInvalid_iff c).mpr hv) (by simp [hall c hc])
    · constructor
      · intro _ c hc
        have := hall c hc
        simp only [staticConfigInvalid, Bool.not_eq_true, Bool.not_eq_true',
          decide_eq_false_iff_not] at this
        by_cases hp : c.path = "" <;> simp_all
      · intro _
        rfl
  | some c =>
    have hmem := List.mem_of_find?_eq_some hf
    have hinv := List.find?_some hf
    constructor
    · constructor
      · intro _
        exact ⟨c, hmem, (staticConfigInvalid_iff c).mp hinv⟩
      · intro _
        rfl
    · constructor
      · intro h
        exact Except.noConfusion h
      · intro hall
        have := hall c hmem
        rw [staticConfigInvalid_iff] at hinv
        by_cases hp : c.path = "" <;> simp_all

/-- C10: `StaticAuthorizationConfig.Matches` never consults the user's
group list or the attributes' apiVersion: changing the groups of the
request's user and its apiVersion, or the groups listed in the rule, leaves
the match result unchanged. -/
theorem static_matches_c10 (c : StaticAuthorizationConfig)
    (a : AttributesRecord) (gs gs2 : List String) (ver : String) :
    Matches c
      { a with user := a.user.map (fun u => { u with groups := gs }),
               apiVersion := ver } = Matches c a
    ∧ Matches { c with user := { c.user with groups := gs2 } } a
        = Matches c a := by
  constructor
  · unfold Matches userNameOf
    cases hu : a.user <;> simp [hu]
  · rfl

/-! ## The AND combinator (claims C1 and C3) -/

theorem andLoop_allow_init (d : AttributesRecord → AuthzResult)
    (rest : List AttributesRecord) :
    andLoop d rest .allow =
      match rest with
      | [] => ⟨.allow, "", none⟩
      | _ :: _ => andLoop d rest .deny := by
  cases rest <;> rfl

theorem allowsB_eq (d : AttributesRecord → AuthzResult) (a : AttributesRecord) :
    allowsB d a = true ↔ ((d a).err = none ∧ (d a).decision = .allow) := by
  simp [allowsB]

/-- C1 (amended): on every generated attribute-set sequence the AND
combinator's result and its delegate-call sequence are exactly the spec's:
the calls are the prefix up to and including the first set that is not
individually allowed, that set determines the Deny result (its coordinates
in the reason, or in the error for a delegate error), and the result is
Allow if and only if the sequence is non-empty and every set is
individually allowed (the empty sequence yields Deny with reason
"No attribute combination matched" and a nil error). -/
theorem and_combinator_c1 (d : AttributesRecord → AuthzResult)
    (attrs : List AttributesRecord) :
    andCombinator d attrs = andSpecResult d attrs
    ∧ andCalls d attrs = andSpecCalls d attrs
    ∧ ((andCombinator d attrs).decision = .allow ↔
        (attrs ≠ [] ∧ ∀ a ∈ attrs, allowsB d a = true)) := by
  have key : andCombinator d attrs = andSpecResult d attrs
      ∧ andCalls d attrs = andSpecCalls d attrs := by
    induction attrs with
    | nil => exact ⟨rfl, rfl⟩
    | cons a rest ih =>
      by_cases hall : allowsB d a = true
      · obtain ⟨herr, hdec⟩ := (allowsB_eq d a).mp hall
        constructor
        · show andLoop d (a :: rest) .deny = _
          rw [andLoop]
          rw [herr]
          simp only [hdec, ne_eq, not_true_eq_false, if_false]
          rw [andLoop_allow_init]
          simp only [andSpecResult, List.find?_cons, hall, Bool.not_true]
          cases rest with
          | nil => rfl
          | cons b tl =>
            have := ih.1
            simp only [andCombinator, andSpecResult] at this
            rw [this]
            cases hf : (b :: tl).find? (fun x => !allowsB d x) <;> simp [hf]
        · show andCalls d (a :: rest) = _
          have hcond := (allowsB_eq d a).mp hall
          rw [andCalls, if_pos hcond, ih.2]
          simp [andSpecCalls, List.findIdx_cons, hall, List.take_succ_cons]
      · have hfind : (a :: rest).find? (fun x => !allowsB d x) = some a := by
          simp [List.find?_cons, hall]
        have hidx : (a :: rest).findIdx (fun x => !allowsB d x) = 0 := by
          simp [List.findIdx_cons, hall]
        constructor
        · show andLoop d (a :: rest) .deny = _
          rw [andLoop]
          simp only [andSpecResult, hfind]
          cases herr : (d a).err with
          | some e => simp [herr]
          | none =>
            have hdec : ¬(d a).decision = .allow := by
              intro hcon
              exact hall ((allowsB_eq d a).mpr ⟨herr, hcon⟩)
            simp [herr, hdec]
        · show andCalls d (a :: rest) = _
          rw [andCalls]
          simp only [andSpecCalls, hidx]
          have : ¬((d a).err = none ∧ (d a).decision = .allow) := by
            intro hcon
            exact hall ((allowsB_eq d a).mpr hcon)
          simp [this]
  refine ⟨key.1, key.2, ?_⟩
  rw [key.1]
  unfold andSpecResult
  cases hf : attrs.find? (fun x => !allowsB d x) with
  | some a =>
    have hmem := List.mem_of_find?_eq_some hf
    have hna : allowsB d a = false := by
      have := List.find?_some hf
      simpa using this
    constructor
    · intro hcon
      exfalso
      cases herr : (d a).err <;> simp [herr] at hcon
    · intro ⟨_, hall⟩
      exact absurd (hall a hmem) (by simp [hna])
  | none =>
    have hall : ∀ x ∈ attrs, allowsB d x = true := by
      intro x hx
      have := List.find?_eq_none.mp hf x hx
      simpa using this
    cases attrs with
    | nil => simp
    | cons b tl =>
      simp only [List.isEmpty_cons, Bool.false_eq_true, if_false]
      constructor
      · intro _
        exact ⟨by simp, hall⟩
      · intro _
        trivial

/-- C1 counterexample: on the empty generated sequence every set is
(vacuously) individually allowed, yet the AND combinator returns Deny, so
"Allow if and only if every generated set is allowed" fails as stated. -/
theorem and_combinator_c1_empty_counterexample :
    ([] : List AttributesRecord).all (fun a => allowsB constAllow a) = true
    ∧ andCombinator constAllow [] =
        ⟨.deny, "No attribute combination matched", none⟩
    ∧ (andCombinator constAllow []).decision ≠ .allow := by
  refine ⟨rfl, rfl, ?_⟩
  decide

/-- C3 (amended): with zero generated attribute sets the rewritingAuthorizer
fails closed with the malformed-request reason and a non-nil error distinct
from an ordinary denial, while the generator-driven delegateAuthorizer (the
newer AND combinator, which has no zero-set check) returns Deny with reason
"No attribute combination matched" and a nil error, indistinguishable from
an ordinary denial. -/
theorem zero_attrs_c3 (ra : ResourceAttributes)
    (rw0 : SubjectAccessReviewRewrites) (d : Authorizer)
    (attr : AttributesRecord) (gen : AttributesGenerator) (ctx : Ctx) :
    rewritingAuthorize ⟨some rw0, some ra⟩ d [] attr
        = some ⟨.deny, malformedReason, some malformedErr⟩
    ∧ (some malformedErr ≠ (none : Option String))
    ∧ (generate gen ctx attr = some [] →
        delegateAuthorize gen d ctx attr =
          some ⟨.deny, "No attribute combination matched", none⟩) := by
  refine ⟨rfl, by simp, ?_⟩
  intro hgen
  simp [delegateAuthorize, hgen, andCombinator, andLoop]

/-- C3 counterexample: the Rewriting generator with no extracted parameters
produces zero attribute sets, and the delegateAuthorizer then returns Deny
with a nil error — not the non-nil "bad request" error the claim requires
of the AND combinator. -/
theorem zero_attrs_c3_counterexample :
    generate (.rewriting raSample) [] attrBob = some []
    ∧ delegateAuthorize (.rewriting raSample) dAllow [] attrBob
        = some ⟨.deny, "No attribute combination matched", none⟩
    ∧ (⟨.deny, "No attribute combination matched", none⟩ : AuthzResult).err
        = none := by
  exact ⟨rfl, rfl, rfl⟩

/-! ## Rewrite parameter extractor (claim C2) -/

/-- C2 (amended): the extractor consults the query parameter when one is
configured and the header when one is configured, concatenating the query
values (in transport order) followed by the header values; when both
sources are configured both are consulted; without a config or without
rewrites it returns the empty sequence. -/
theorem request_to_params_c2 (rw0 : SubjectAccessReviewRewrites)
    (ra : Option ResourceAttributes) (req : Request) :
    requestToParams (some ⟨some rw0, ra⟩) req
        = queryParamsOf rw0 req ++ headerParamsOf rw0 req
    ∧ requestToParams none req = []
    ∧ requestToParams (some ⟨none, ra⟩) req = [] := by
  refine ⟨?_, rfl, rfl⟩
  unfold requestToParams queryParamsOf headerParamsOf
  rcases hq : rw0.byQueryParameter with _ | qc <;>
    rcases hh : rw0.byHTTPHeader with _ | hhc
  · simp [hq, hh]
  · by_cases hn : hhc.name = ""
    · simp [hq, hh, hn]
    · cases hl : lookupVals req.header (canonicalMIMEHeaderKey hhc.name) <;>
        simp [hq, hh, hn, hl]
  · by_cases hqn : qc.name = ""
    · simp [hq, hh, hqn]
    · cases hql : lookupVals req.query qc.name <;> simp [hq, hh, hqn, hql]
  · by_cases hqn : qc.name = "" <;> by_cases hn : hhc.name = ""
    · simp [hq, hh, hqn, hn]
    · cases hl : lookupVals req.header (canonicalMIMEHeaderKey hhc.name) <;>
        simp [hq, hh, hqn, hn, hl]
    · cases hql : lookupVals req.query qc.name <;> simp [hq, hh, hqn, hn, hql]
    · cases hql : lookupVals req.query qc.name <;>
        cases hl : lookupVals req.header (canonicalMIMEHeaderKey hhc.name) <;>
          simp [hq, hh, hqn, hn, hql, hl]

/-- C2 counterexample: with both a query parameter and a header configured,
a request carrying `qv` in the query and `hv` in the header yields the
combined sequence [qv, hv] — the two sources are concatenated, not
mutually exclusive, so the extraction is not limited to one source. -/
theorem request_to_params_c2_counterexample :
    requestToParams cfgBothSources reqBothSources = ["qv", "hv"]
    ∧ (["qv", "hv"] : List String) ≠ ["qv"]
    ∧ (["qv", "hv"] : List String) ≠ ["hv"] := by
  refine ⟨?_, by decide, by decide⟩
  decide

/-! ## Template substitution (claim C7) -/

theorem hasOpenAction_cons (c : Char) (rest : List Char)
    (hb : ¬(c = '{' ∧ rest.head? = some '{')) :
    hasOpenAction (c :: rest) = hasOpenAction rest := by
  rw [hasOpenAction.eq_def]
  split
  · rename_i heq
    exact absurd heq (by simp)
  · rename_i heq
    injection heq with h1 h2
    subst h1
    exact absurd ⟨rfl, by rw [h2]; rfl⟩ hb
  · rename_i heq
    injection heq with h1 h2
    rw [h2]

theorem scanTemplate_text_step (c : Char) (rest : List Char)
    (hb : ¬(c = '{' ∧ rest.head? = some '{')) :
    scanTemplate none (c :: rest) =
      (scanTemplate none rest).map (fun ns => TNode.text (String.mk [c]) :: ns) := by
  rw [scanTemplate.eq_def]
  split
  · rename_i heq
    exact absurd heq (by simp)
  · rename_i heq
    injection heq with h1 h2
    subst h1
    exact absurd ⟨rfl, by rw [h2]; rfl⟩ hb
  · rename_i heq
    injection heq with h1 h2
    subst h1 h2
    rfl
  · rename_i hm heq
    exact Option.noConfusion hm
  · rename_i hm heq
    exact Option.noConfusion hm
  · rename_i hm heq
    exact Option.noConfusion hm

theorem scanTemplate_noAction (cs : List Char) (h : hasOpenAction cs = false) :
    ∃ ns, scanTemplate none cs = some ns
      ∧ ∀ v, renderNodes ns v = some (String.mk cs) := by
  induction cs with
  | nil => exact ⟨[], rfl, fun v => rfl⟩
  | cons c rest ih =>
    by_cases hb : c = '{' ∧ rest.head? = some '{'
    · obtain ⟨rfl, hh⟩ := hb
      cases rest with
      | nil => exact absurd hh (by simp)
      | cons c2 rest2 =>
        have : c2 = '{' := by simpa using hh
        subst this
        simp [hasOpenAction] at h
    · rw [hasOpenAction_cons c rest hb] at h
      obtain ⟨ns, hns, hrender⟩ := ih h
      refine ⟨.text (String.mk [c]) :: ns, ?_, ?_⟩
      · rw [scanTemplate_text_step c rest hb, hns]
        rfl
      · intro v
        simp only [renderNodes]
        rw [hrender v]
        rfl

/-- C7 (amended): a field whose template parses but whose execution fails
renders as the empty string rather than failing the request; a field with
no placeholder (no `{{` anywhere) renders unchanged; a field whose template
fails to parse makes `templateWithValue` panic (explicitly in the
pkg/authorization/config.go copy, via a nil dereference in the other two),
modelled as `none`. -/
theorem template_with_value_c7 (s v : String) :
    (parseTemplate s = none → templateWithValue s v = none)
    ∧ (∀ ns, parseTemplate s = some ns → renderNodes ns v = none →
        templateWithValue s v = some "")
    ∧ (hasOpenAction s.toList = false → templateWithValue s v = some s) := by
  refine ⟨?_, ?_, ?_⟩
  · intro hp
    unfold templateWithValue
    rw [hp]
  · intro ns hp hr
    unfold templateWithValue
    rw [hp]
    dsimp only
    rw [hr]
  · intro hno
    obtain ⟨ns, hns, hrender⟩ := scanTemplate_noAction s.toList hno
    unfold templateWithValue parseTemplate
    rw [hns]
    dsimp only
    rw [hrender v]
    rfl

/-- C7 witness: a field with no placeholder renders unchanged (applying the
theorem at the template "pods"). -/
theorem template_with_value_c7_witness :
    templateWithValue "pods" "x" = some "pods" :=
  (template_with_value_c7 "pods" "x").2.2 (by decide)

/-- C7 counterexample: the template `{{` fails to parse, and
`templateWithValue` panics (modelled `none`) instead of rendering the field
as the empty string. -/
theorem template_with_value_c7_counterexample :
    templateWithValue "\x7b\x7b" "v" = none
    ∧ templateWithValue "\x7b\x7b" "v" ≠ some "" := by
  refine ⟨?_, ?_⟩ <;> decide

/-! ## Rewriting attributes generator (claim C8) -/

theorem templateWithValue_of_parse (f p : String)
    (hf : (parseTemplate f).isSome = true) :
    templateWithValue f p = some (substValue f p) := by
  unfold substValue
  cases ht : templateWithValue f p with
  | some s => rfl
  | none =>
    unfold templateWithValue at ht
    cases hp : parseTemplate f with
    | none =>
      rw [hp] at hf
      exact absurd hf (by simp)
    | some nodes =>
      rw [hp] at ht
      dsimp only at ht
      cases hr : renderNodes nodes p <;> rw [hr] at ht <;>
        exact Option.noConfusion ht

theorem substituteAttr_of_parse (ra : ResourceAttributes) (u : Option UserInfo)
    (verb p : String) (h : raTemplatesParse ra = true) :
    substituteAttr ra u verb p =
      some ⟨u, verb, substValue ra.nspace p, substValue ra.apiGroup p,
        substValue ra.apiVersion p, substValue ra.resource p,
        substValue ra.subresource p, substValue ra.name p, true, ""⟩ := by
  simp only [raTemplatesParse, Bool.and_eq_true] at h
  obtain ⟨⟨⟨⟨⟨h1, h2⟩, h3⟩, h4⟩, h5⟩, h6⟩ := h
  unfold substituteAttr
  rw [templateWithValue_of_parse _ _ h1, templateWithValue_of_parse _ _ h2,
    templateWithValue_of_parse _ _ h3, templateWithValue_of_parse _ _ h4,
    templateWithValue_of_parse _ _ h5, templateWithValue_of_parse _ _ h6]
  rfl

theorem mapM_of_all_some {α β : Type} (g : α → Option β) (f : α → β)
    (hg : ∀ a, g a = some (f a)) (l : List α) :
    l.mapM g = some (l.map f) := by
  induction l with
  | nil => rfl
  | cons a t ih =>
    rw [List.mapM_cons, hg a, ih]
    rfl

/-- C8: given the extracted parameter values in the request context, the
Rewriting generator (whose six template fields all parse) produces exactly
one attribute set per value, in extraction order, the i-th obtained by
substituting the i-th value into every templated field, each with
resourceRequest true and the original user and verb; zero extracted values
produce zero attribute sets. -/
theorem rewriting_generator_c8 (ra : ResourceAttributes) (params : Ctx)
    (attr : AttributesRecord) (h : raTemplatesParse ra = true) :
    generate (.rewriting ra) params attr =
      some (params.map (fun p =>
        ⟨attr.user, attr.verb, substValue ra.nspace p, substValue ra.apiGroup p,
         substValue ra.apiVersion p, substValue ra.resource p,
         substValue ra.subresource p, substValue ra.name p, true, ""⟩))
    ∧ generate (.rewriting ra) [] attr = some [] := by
  constructor
  · cases params with
    | nil => rfl
    | cons p t =>
      show (p :: t).mapM (substituteAttr ra attr.user attr.verb) = _
      exact mapM_of_all_some _ _
        (fun q => substituteAttr_of_parse ra attr.user attr.verb q h) (p :: t)
  · rfl

/-- C8 witness: the sample template with extracted values [ns1, ns2] yields
exactly the two substituted attribute sets, in order. -/
theorem rewriting_generator_c8_witness :
    generate (.rewriting raSample) ["ns1", "ns2"] attrBob =
      some [⟨some ⟨"bob", []⟩, "get", "ns1", "", "v1", "pods", "", "", true, ""⟩,
        ⟨some ⟨"bob", []⟩, "get", "ns2", "", "v1", "pods", "", "", true, ""⟩] := by
  have h := (rewriting_generator_c8 raSample ["ns1", "ns2"] attrBob (by decide)).1
  rw [h]
  decide

/-! ## Path authorizer (claim C6) -/

theorem pathStep_foldl (ps : List String) (acc : List String × List String) :
    ps.foldl pathStep acc =
      (acc.1 ++ (ps.map trimOneSlash).filter (fun e => !containsStar e),
       acc.2 ++ (ps.map trimOneSlash).filter (fun e => containsStar e)) := by
  induction ps generalizing acc with
  | nil => simp
  | cons p t ih =>
    rw [List.foldl_cons, ih]
    unfold pathStep
    by_cases h0 : (trimOneSlash p).length = 0
    · have hqe : trimOneSlash p = "" := by
        cases hq : trimOneSlash p with
        | mk data =>
          rw [hq] at h0
          cases data with
          | nil => rfl
          | cons c cs => simp [String.length] at h0
      have hstar0 : containsStar "" = false := by decide
      simp [h0, hqe, hstar0, List.filter_cons, List.append_assoc]
    · by_cases hstar : containsStar (trimOneSlash p)
      · simp [h0, hstar, List.filter_cons, List.append_assoc]
      · simp [h0, hstar, List.filter_cons, List.append_assoc]

theorem newPathAuthorizer_paths (m n : Decision) (ps : List String) :
    (newPathAuthorizer m n ps).paths =
      (ps.map trimOneSlash).filter (fun e => !containsStar e) := by
  unfold newPathAuthorizer
  rw [pathStep_foldl]
  simp

theorem newPathAuthorizer_patterns (m n : Decision) (ps : List String) :
    (newPathAuthorizer m n ps).pathPatterns =
      (ps.map trimOneSlash).filter (fun e => containsStar e) := by
  unfold newPathAuthorizer
  rw [pathStep_foldl]
  simp

theorem matchPatterns_of_ok (md nmd : Decision) (pth : String)
    (pats : List String) (h : ∀ pat ∈ pats, globOk pat pth = true) :
    matchPatterns md nmd pth pats =
      (if pats.any (fun pat => globMatchB pat pth) then ⟨md, "", none⟩
       else ⟨nmd, "", none⟩) := by
  induction pats with
  | nil => rfl
  | cons pat t ih =>
    have hok := h pat (by simp)
    unfold matchPatterns
    cases hg : globMatch pat.data pth.data with
    | error e =>
      exfalso
      unfold globOk at hok
      rw [hg] at hok
      exact Bool.noConfusion hok
    | ok b =>
      cases b with
      | true => simp [List.any_cons, globMatchB, hg]
      | false =>
        rw [ih (fun q hq => h q (by simp [hq]))]
        simp [List.any_cons, globMatchB, hg]

theorem contains_eq_any (l : List String) (a : String) :
    l.contains a = l.any (fun e => e = a) := by
  induction l with
  | nil => rfl
  | cons x t ih =>
    simp only [List.contains_cons, List.any_cons, ih]
    by_cases hx : x = a
    · simp [hx]
    · have : (a == x) = false := by
        simp [Ne.symm hx]
      simp [this, hx]

theorem any_filter_split (l : List String) (p f g : String → Bool) :
    ((l.filter (fun e => !p e)).any g || (l.filter p).any f)
    = l.any (fun e => if p e then f e else g e) := by
  induction l with
  | nil => rfl
  | cons e t ih =>
    cases hp : p e with
    | true =>
      simp only [List.filter_cons, hp, List.any_cons]
      rw [← ih]
      cases hA : (t.filter (fun x => !p x)).any g <;>
        cases hB : f e <;>
          cases hC : (t.filter p).any f <;> simp [hA, hB, hC]
    | false =>
      simp only [List.filter_cons, hp, List.any_cons]
      rw [← ih]
      cases hA : g e <;>
        cases hB : (t.filter (fun x => !p x)).any g <;>
          cases hC : (t.filter p).any f <;> simp [hA, hB, hC]

theorem newPathAuthorizer_matchDecision (m n : Decision) (ps : List String) :
    (newPathAuthorizer m n ps).matchDecision = m := rfl

theorem newPathAuthorizer_noMatchDecision (m n : Decision) (ps : List String) :
    (newPathAuthorizer m n ps).noMatchDecision = n := rfl

theorem specPathMatches_eq (ps : List String) (r : String) :
    specPathMatches ps r =
      (ps.map trimOneSlash).any (fun e =>
        if containsStar e then globMatchB e (trimOneSlash r)
        else e = trimOneSlash r) := by
  unfold specPathMatches entryMatchesB
  rw [List.any_map]
  rfl

theorem pathAuthorize_eq (m n : Decision) (ps : List String)
    (attr : AttributesRecord) (hok : pathGlobsOk ps attr.path = true) :
    pathAuthorize (newPathAuthorizer m n ps) attr =
      (if specPathMatches ps attr.path = true then ⟨m, "", none⟩
       else ⟨n, "", none⟩) := by
  have hpat : ∀ pat ∈ (ps.map trimOneSlash).filter (fun e => containsStar e),
      globOk pat (trimOneSlash attr.path) = true := by
    intro pat hmem
    rw [List.mem_filter] at hmem
    obtain ⟨hmem, hstar⟩ := hmem
    rw [List.mem_map] at hmem
    obtain ⟨e, he, rfl⟩ := hmem
    unfold pathGlobsOk at hok
    rw [List.all_eq_true] at hok
    have h2 := hok e he
    simp only [hstar, Bool.not_true, Bool.false_or] at h2
    exact h2
  unfold pathAuthorize
  dsimp only
  rw [newPathAuthorizer_paths, newPathAuthorizer_patterns,
    newPathAuthorizer_matchDecision, newPathAuthorizer_noMatchDecision]
  rw [matchPatterns_of_ok _ _ _ _ hpat]
  rw [specPathMatches_eq, ← any_filter_split (ps.map trimOneSlash)
    (fun e => containsStar e) (fun e => globMatchB e (trimOneSlash attr.path))
    (fun e => e = trimOneSlash attr.path)]
  rw [contains_eq_any]
  by_cases hc : ((ps.map trimOneSlash).filter (fun e => !containsStar e)).any
      (fun e => e = trimOneSlash attr.path) = true
  · simp [hc]
  · have hA : ((ps.map trimOneSlash).filter (fun e => !containsStar e)).any
        (fun e => e = trimOneSlash attr.path) = false := by
      cases hx : ((ps.map trimOneSlash).filter (fun e => !containsStar e)).any
          (fun e => e = trimOneSlash attr.path)
      · rfl
      · exact absurd hx hc
    simp [hA]

/-- C6: on a configured (non-empty) path list whose glob entries are
well-formed for the request path, the evaluator strips one leading slash
from entries and request path and matches the exact set and then the glob
patterns; under the allow-list constructor a match yields NoOpinion and no
match yields Deny, and under the ignore-list constructor a match yields
Allow and no match yields NoOpinion. -/
theorem path_authorizer_c6 (ps : List String) (attr : AttributesRecord)
    (hne : ps ≠ []) (hok : pathGlobsOk ps attr.path = true) :
    NewAllowPathAuthorizer ps attr =
      (if specPathMatches ps attr.path = true then ⟨.noOpinion, "", none⟩
       else ⟨.deny, "", none⟩)
    ∧ NewAlwaysAllowPathAuthorizer ps attr =
      (if specPathMatches ps attr.path = true then ⟨.allow, "", none⟩
       else ⟨.noOpinion, "", none⟩) := by
  constructor
  · unfold NewAllowPathAuthorizer
    rw [if_neg (by simp [hne])]
    exact pathAuthorize_eq _ _ ps attr hok
  · exact pathAuthorize_eq _ _ ps attr hok

/-- C6 witness: with the configured list [/healthz, metrics], the request
path /metrics (stripped to `metrics`) matches the exact set: the allow-list
authorizer abstains with NoOpinion and the ignore-list authorizer allows. -/
theorem path_authorizer_c6_witness :
    NewAllowPathAuthorizer ["/healthz", "metrics"] attrBob
        = ⟨.noOpinion, "", none⟩
    ∧ NewAlwaysAllowPathAuthorizer ["/healthz", "metrics"] attrBob
        = ⟨.allow, "", none⟩ := by
  obtain ⟨h1, h2⟩ := path_authorizer_c6 ["/healthz", "metrics"] attrBob
    (by decide) (by decide)
  rw [h1, h2]
  constructor <;> decide

/-! ## Composition root (claim C4) -/

/-- C4: the authorizer `SetupAuthorizer` builds behaves as the AND
combinator — driven by the generator selected from the configuration
(Default without ResourceAttributes, Bound with ResourceAttributes and no
rewrites, Rewriting with both) — applied over the OR combinator of, in
priority order, the path strategy (if configured), the static matcher (if
configured) and the delegate boundary: the path strategy sits inside the
union that the AND combinator wraps. -/
theorem setup_authorizer_c4 (config : AuthzConfig)
    (allowPaths ignorePaths : List String) (delegate : Authorizer)
    (A : Ctx → AttributesRecord → Option AuthzResult)
    (h : SetupAuthorizer config allowPaths ignorePaths delegate = .ok A)
    (ctx : Ctx) (attr : AttributesRecord) :
    A ctx attr = delegateAuthorize (specGeneratorFor config)
      (unionAuthorize (specStrategyList config allowPaths ignorePaths delegate))
      ctx attr := by
  have hgen : selectGenerator config = specGeneratorFor config := by
    unfold selectGenerator specGeneratorFor
    cases config.resourceAttributes <;> cases config.rewrites <;> rfl
  unfold SetupAuthorizer at h
  split at h
  · exact Except.noConfusion h
  · dsimp only at h
    cases hst : config.static with
    | none =>
      rw [hst] at h
      dsimp only at h
      injection h with h1
      subst h1
      unfold setupFinish specStrategyList
      rw [hgen, hst]
      simp
    | some staticCfg =>
      rw [hst] at h
      dsimp only at h
      unfold NewStaticAuthorizer at h
      cases hf : staticCfg.find? staticConfigInvalid with
      | some c =>
        rw [hf] at h
        exact Except.noConfusion h
      | none =>
        rw [hf] at h
        dsimp only at h
        injection h with h1
        subst h1
        unfold setupFinish specStrategyList
        rw [hgen, hst]

/-- C4 witness: the authorizer built for the sample configuration (allow
path `metrics`, one static rule, no template) evaluated at the /metrics
request equals the spec-side composition, and both allow the request. -/
theorem setup_authorizer_c4_witness :
    setupC4 [] attrBob = some ⟨.allow, "", none⟩ := by
  rw [setup_authorizer_c4 cfgC4 ["metrics"] [] dAllow setupC4 rfl [] attrBob]
  decide

end KubeRBACProxy
